import Mathlib

set_option maxRecDepth 10000

/-!
Verification of the rate-limiter / input-validator core of the portfolio
HTTP server (`src/main.go`).  Go strings are modelled as lists of
characters; all denylist patterns and all concrete inputs appearing in
the claims are ASCII, where Go's byte-level operations and the
character-level model coincide (case folding is the ASCII folding that
Go's `(?i)` performs on these ASCII-only patterns).  `time.Time` values
are modelled as `Int` numbers of seconds; `t.After(u)` is `u < t` and
`t.Before(u)` is `t < u`; the constants `5 * time.Minute` and
`1 * time.Minute` become `300` and `60` seconds.
-/

/-- Embedding of `ClientLimiter` (main.go lines 105-108): a per-client
record of request timestamps plus the creation time `lastReset`. -/
structure ClientLimiter where
  requests : List Int
  lastReset : Int
deriving DecidableEq

/-- The Go `map[string]*ClientLimiter` is modelled as an association list
from client IP to `ClientLimiter`. -/
abbrev Registry := List (String × ClientLimiter)

/-- Map lookup: first entry whose key equals `ip`. -/
def lookupClient : Registry → String → Option ClientLimiter
  | [], _ => none
  | (k, v) :: rest, ip => if k = ip then some v else lookupClient rest ip

/-- Map store `rl.clients[ip] = cw`: overwrite the entry for `ip`, or
add a fresh one when `ip` is absent. -/
def setClient : Registry → String → ClientLimiter → Registry
  | [], ip, cw => [(ip, cw)]
  | (k, v) :: rest, ip, cw =>
      if k = ip then (ip, cw) :: rest else (k, v) :: setClient rest ip cw

/-- Embedding of `RateLimiter` (main.go lines 100-103); the mutex guards
concurrency only and has no sequential meaning. -/
structure RateLimiter where
  clients : Registry
deriving DecidableEq

/-- `NewRateLimiter` (main.go lines 111-115): empty registry. -/
def NewRateLimiter : RateLimiter := ⟨[]⟩

/-- Embedding of `(*RateLimiter).IsAllowed` (main.go lines 118-163) at a
given current time `now`.  The Go code looks up or creates the client
(creation sets `lastReset = now` and an empty request list, mirrored here
by `Option.getD`), overwrites `client.requests` with the timestamps newer
than `now - 5min`, counts the survivors newer than `now - 1min`, rejects
when that count is ≥ 3 or the purged list has length ≥ 10, and otherwise
appends `now` and admits.  In both outcomes the (possibly created, always
purged) client record is the one left in the map, which `setClient`
reproduces. -/
def isAllowed (rl : RateLimiter) (clientIP : String) (now : Int) :
    Bool × RateLimiter :=
  let client := (lookupClient rl.clients clientIP).getD ⟨[], now⟩
  let fiveMinutesAgo := now - 300
  let oneMinuteAgo := now - 60
  let validRequests := client.requests.filter (fun t => decide (fiveMinutesAgo < t))
  let recentRequests := (validRequests.filter (fun t => decide (oneMinuteAgo < t))).length
  if 3 ≤ recentRequests ∨ 10 ≤ validRequests.length then
    (false, ⟨setClient rl.clients clientIP ⟨validRequests, client.lastReset⟩⟩)
  else
    (true, ⟨setClient rl.clients clientIP ⟨validRequests ++ [now], client.lastReset⟩⟩)

/-- Embedding of `(*RateLimiter).Cleanup` (main.go lines 166-178) at time
`now`: delete every entry whose `lastReset` is before `now - 5min` and
whose request list is empty.  The Go range loop deletes only entries it
is currently visiting, so the sweep is exactly a filter. -/
def cleanup (rl : RateLimiter) (now : Int) : RateLimiter :=
  ⟨rl.clients.filter
    (fun e => !(decide (e.2.lastReset < now - 300) && e.2.requests.isEmpty))⟩

/-- Run a sequence of `IsAllowed` calls from one client, collecting the
boolean verdicts and the final limiter state. -/
def runCalls (rl : RateLimiter) (ip : String) : List Int → List Bool × RateLimiter
  | [] => ([], rl)
  | t :: ts =>
      let step := isAllowed rl ip t
      let rest := runCalls step.2 ip ts
      (step.1 :: rest.1, rest.2)

/-- The limiter states reachable from the fresh limiter by `IsAllowed`
calls (arbitrary identifiers and times). -/
inductive Reachable : RateLimiter → Prop
  | init : Reachable NewRateLimiter
  | step (rl : RateLimiter) (ip : String) (now : Int) :
      Reachable rl → Reachable (isAllowed rl ip now).2

/-- A registry on which `IsAllowed` rejects while still mutating state:
client "c" holds one timestamp (0) that is older than five minutes at
time 310 next to three fresh ones. -/
def rlC3 : RateLimiter := ⟨[("c", ⟨[0, 290, 295, 300], 0⟩)]⟩

/-- A registry holding a window with an empty timestamp sequence whose
`lastReset` (10) is recent. -/
def rlC4 : RateLimiter := ⟨[("c", ⟨[], 10⟩)]⟩

/-- The three distinct rejection reasons `validateChatbotInput` can
produce (main.go lines 184, 188, 204/210): the repeated-character rule
and the denylist rule share the message "invalid input detected" and are
therefore one constructor. -/
inductive ValidationError where
  | tooLong
  | emptyInput
  | invalidInput
deriving DecidableEq

/-- Go's `unicode.IsSpace`, i.e. the white-space code points trimmed by
`strings.TrimSpace`. -/
def isSpaceGo (c : Char) : Bool :=
  [9, 10, 11, 12, 13, 32, 0x85, 0xA0, 0x1680,
   0x2000, 0x2001, 0x2002, 0x2003, 0x2004, 0x2005, 0x2006, 0x2007,
   0x2008, 0x2009, 0x200A, 0x2028, 0x2029, 0x202F, 0x205F, 0x3000].contains c.toNat

/-- The inner loop of the repeated-character check (main.go lines
200-202): how many further characters equal to `c` follow. -/
def countLead (c : Char) : List Char → Nat
  | [] => 0
  | d :: rest => if d = c then 1 + countLead c rest else 0

/-- The `count` computed at one position `i` (main.go lines 198-202):
the character at `i` itself plus the equal characters after it. -/
def runFrom : List Char → Nat
  | [] => 0
  | c :: rest => 1 + countLead c rest

/-- The repeated-character scan (main.go lines 197-206): for every start
index `i < len(input) - 10` (no iterations when the length is at most
10, matching Go's signed comparison), test whether the run starting at
`i` exceeds 10. -/
def hasLongRun (input : List Char) : Bool :=
  (List.range (input.length - 10)).any fun i => decide (10 < runFrom (input.drop i))

/-- Whether `needle` matches at the very start of the haystack. -/
def firstMatches : List Char → List Char → Bool
  | [], _ => true
  | _ :: _, [] => false
  | a :: as, b :: bs => a == b && firstMatches as bs

/-- Whether `needle` occurs as a contiguous substring of the haystack. -/
def occursIn (needle : List Char) : List Char → Bool
  | [] => firstMatches needle []
  | c :: rest => firstMatches needle (c :: rest) || occursIn needle rest

/-- The alternatives of the denylist regular expression
`(?i)(hack|exploit|attack|inject|<script|javascript:|data:|vbscript:)`
(main.go line 193). -/
def denyPatterns : List (List Char) :=
  [['h', 'a', 'c', 'k'],
   ['e', 'x', 'p', 'l', 'o', 'i', 't'],
   ['a', 't', 't', 'a', 'c', 'k'],
   ['i', 'n', 'j', 'e', 'c', 't'],
   ['<', 's', 'c', 'r', 'i', 'p', 't'],
   ['j', 'a', 'v', 'a', 's', 'c', 'r', 'i', 'p', 't', ':'],
   ['d', 'a', 't', 'a', ':'],
   ['v', 'b', 's', 'c', 'r', 'i', 'p', 't', ':']]

/-- The case-insensitive denylist match (main.go lines 208-212): some
alternative occurs in the lower-cased input; `Char.toLower` is the ASCII
folding, which agrees with `(?i)` on these ASCII patterns. -/
def matchesSuspicious (input : List Char) : Bool :=
  denyPatterns.any fun p => occursIn p (input.map Char.toLower)

/-- Embedding of `validateChatbotInput` (main.go lines 181-215), checks
in source order: raw length over 500; everything white space (Go tests
`len(strings.TrimSpace(input)) == 0`, which holds exactly when every
character is white space); a run of more than 10 equal characters; a
denylist match.  `none` means the input is accepted. -/
def validateChatbotInput (input : List Char) : Option ValidationError :=
  if 500 < input.length then some .tooLong
  else if input.all isSpaceGo then some .emptyInput
  else if hasLongRun input then some .invalidInput
  else if matchesSuspicious input then some .invalidInput
  else none

/-- No two adjacent characters are equal. -/
def noAdjEq : List Char → Bool
  | [] => true
  | [_] => true
  | a :: b :: rest => !(a == b) && noAdjEq (b :: rest)

/-- A 500-character input ("abab…ab") that trips none of the rules. -/
def goodInput500 : List Char := List.flatten (List.replicate 250 ['a', 'b'])

/-- The input "please hack the system". -/
def pleaseHackInput : List Char :=
  ['p', 'l', 'e', 'a', 's', 'e', ' ', 'h', 'a', 'c', 'k', ' ',
   't', 'h', 'e', ' ', 's', 'y', 's', 't', 'e', 'm']

/-- The input "please HACK the system". -/
def pleaseHackUpper : List Char :=
  ['p', 'l', 'e', 'a', 's', 'e', ' ', 'H', 'A', 'C', 'K', ' ',
   't', 'h', 'e', ' ', 's', 'y', 's', 't', 'e', 'm']

/-! ### Helper lemmas about the registry -/

lemma lookup_set_self (l : Registry) (ip : String) (cw : ClientLimiter) :
    lookupClient (setClient l ip cw) ip = some cw := by
  induction l with
  | nil => simp [setClient, lookupClient]
  | cons hd tl ih =>
    obtain ⟨k, v⟩ := hd
    by_cases hk : k = ip <;> simp [setClient, lookupClient, hk, ih]

lemma lookup_set_other (l : Registry) (ip k : String) (cw : ClientLimiter)
    (hk : ip ≠ k) :
    lookupClient (setClient l ip cw) k = lookupClient l k := by
  induction l with
  | nil => simp [setClient, lookupClient, hk]
  | cons hd tl ih =>
    obtain ⟨k', v⟩ := hd
    by_cases hk' : k' = ip
    · subst hk'
      simp [setClient, lookupClient, hk]
    · by_cases hk2 : k' = k <;>
        simp [setClient, lookupClient, hk, Ne.symm hk, hk', hk2, ih]

lemma mem_setClient {l : Registry} {ip : String} {cw : ClientLimiter}
    {e : String × ClientLimiter} (h : e ∈ setClient l ip cw) :
    e = (ip, cw) ∨ e ∈ l := by
  induction l with
  | nil => simpa [setClient] using h
  | cons hd tl ih =>
    obtain ⟨k, v⟩ := hd
    by_cases hk : k = ip
    · simp [setClient, hk] at h
      rcases h with h | h
      · exact Or.inl (by simp [h])
      · exact Or.inr (by simp [h])
    · simp [setClient, hk] at h
      rcases h with h | h
      · exact Or.inr (by simp [h])
      · rcases ih h with h' | h'
        · exact Or.inl h'
        · exact Or.inr (by simp [h'])

lemma lookup_mem {l : Registry} {ip : String} {cw : ClientLimiter}
    (h : lookupClient l ip = some cw) : (ip, cw) ∈ l := by
  induction l with
  | nil => simp [lookupClient] at h
  | cons hd tl ih =>
    obtain ⟨k, v⟩ := hd
    by_cases hk : k = ip
    · subst hk
      simp [lookupClient] at h
      simp [h]
    · simp [lookupClient, hk] at h
      simp [ih h]

lemma isAllowed_nil (ip : String) (now : Int) :
    isAllowed ⟨[]⟩ ip now = (true, ⟨[(ip, ⟨[now], now⟩)]⟩) := by
  simp [isAllowed, lookupClient, setClient]

lemma isAllowed_single (ip : String) (cw : ClientLimiter) (now : Int) :
    isAllowed ⟨[(ip, cw)]⟩ ip now =
      (let valid := cw.requests.filter (fun t => decide (now - 300 < t))
       let recent := (valid.filter (fun t => decide (now - 60 < t))).length
       if 3 ≤ recent ∨ 10 ≤ valid.length then
         (false, ⟨[(ip, ⟨valid, cw.lastReset⟩)]⟩)
       else
         (true, ⟨[(ip, ⟨valid ++ [now], cw.lastReset⟩)]⟩)) := by
  simp [isAllowed, lookupClient, setClient]

lemma reachable_nonempty {rl : RateLimiter} (h : Reachable rl) :
    ∀ e ∈ rl.clients, e.2.requests ≠ [] := by
  induction h with
  | init => simp [NewRateLimiter]
  | step rl ip now _ ih =>
    intro e he
    simp only [isAllowed] at he
    split at he
    case isTrue hc =>
      rcases mem_setClient he with rfl | hm
      · have hrec := List.length_filter_le (fun t => decide (now - 60 < t))
          (((lookupClient rl.clients ip).getD ⟨[], now⟩).requests.filter
            (fun t => decide (now - 300 < t)))
        dsimp only
        apply List.length_pos.mp
        rcases hc with h3 | h10 <;> omega
      · exact ih _ hm
    case isFalse hc =>
      rcases mem_setClient he with rfl | hm
      · simp
      · exact ih _ hm

/-! ### Helper lemmas about the validator -/

lemma validate_tooLong_of_long (s : List Char) (h : 500 < s.length) :
    validateChatbotInput s = some .tooLong := by
  unfold validateChatbotInput
  rw [if_pos h]

lemma validate_ne_tooLong_of_short (s : List Char) (h : s.length ≤ 500) :
    validateChatbotInput s ≠ some .tooLong := by
  intro he
  unfold validateChatbotInput at he
  repeat' split at he
  all_goals first | omega | simp_all

lemma countLead_replicate_append (c : Char) (n : Nat) (l : List Char) :
    n ≤ countLead c (List.replicate n c ++ l) := by
  induction n with
  | zero => simp
  | succ n ih =>
    rw [List.replicate_succ, List.cons_append, countLead, if_pos rfl]
    omega

lemma hasLongRun_of_decomp (l₁ l₂ : List Char) (c : Char) :
    hasLongRun (l₁ ++ List.replicate 11 c ++ l₂) = true := by
  unfold hasLongRun
  rw [List.any_eq_true]
  refine ⟨l₁.length, List.mem_range.mpr ?_, ?_⟩
  · simp only [List.length_append, List.length_replicate]
    omega
  · rw [List.append_assoc, List.drop_left]
    have h10 : 10 ≤ countLead c (List.replicate 10 c ++ l₂) :=
      countLead_replicate_append c 10 l₂
    rw [List.replicate_succ, List.cons_append, runFrom]
    simp only [decide_eq_true_eq]
    omega

lemma validate_ne_none_of_hasLongRun (s : List Char) (h : hasLongRun s = true) :
    validateChatbotInput s ≠ none := by
  intro hnone
  unfold validateChatbotInput at hnone
  repeat' split at hnone
  all_goals simp_all

lemma occursIn_of_firstMatches (p h : List Char) (hm : firstMatches p h = true) :
    occursIn p h = true := by
  cases h with
  | nil => exact hm
  | cons c rest =>
    rw [occursIn, hm, Bool.true_or]

lemma firstMatches_self_append (p l : List Char) :
    firstMatches p (p ++ l) = true := by
  induction p with
  | nil => rfl
  | cons a as ih =>
    rw [List.cons_append, firstMatches]
    simp [ih]

lemma occursIn_decomp (p l₁ l₂ : List Char) :
    occursIn p (l₁ ++ p ++ l₂) = true := by
  induction l₁ with
  | nil =>
    rw [List.nil_append]
    exact occursIn_of_firstMatches _ _ (firstMatches_self_append p l₂)
  | cons c rest ih =>
    have hc : (c :: rest) ++ p ++ l₂ = c :: (rest ++ p ++ l₂) := by simp
    rw [hc, occursIn, ih, Bool.or_true]

lemma matchesSuspicious_of_decomp (s l₁ l₂ p : List Char)
    (hp : p ∈ denyPatterns) (hd : s.map Char.toLower = l₁ ++ p ++ l₂) :
    matchesSuspicious s = true := by
  unfold matchesSuspicious
  rw [List.any_eq_true]
  exact ⟨p, hp, by rw [hd]; exact occursIn_decomp p l₁ l₂⟩

lemma validate_ne_none_of_matchesSuspicious (s : List Char)
    (h : matchesSuspicious s = true) : validateChatbotInput s ≠ none := by
  intro hnone
  unfold validateChatbotInput at hnone
  repeat' split at hnone
  all_goals simp_all

lemma noAdjEq_tail {l : List Char} (h : noAdjEq l = true) :
    noAdjEq l.tail = true := by
  match l with
  | [] => exact h
  | [_] => rfl
  | a :: b :: rest =>
    rw [noAdjEq, Bool.and_eq_true] at h
    exact h.2

lemma runFrom_le_one_of_noAdjEq {l : List Char} (h : noAdjEq l = true) :
    runFrom l ≤ 1 := by
  match l with
  | [] => simp [runFrom]
  | [c] => simp [runFrom, countLead]
  | a :: b :: rest =>
    rw [noAdjEq, Bool.and_eq_true] at h
    have hne : ¬(b = a) := by
      intro hab
      simp [hab] at h
    rw [runFrom, countLead, if_neg hne]

lemma noAdjEq_drop {l : List Char} (h : noAdjEq l = true) (i : Nat) :
    noAdjEq (l.drop i) = true := by
  induction i with
  | zero => simpa using h
  | succ n ih =>
    rw [← List.tail_drop]
    exact noAdjEq_tail ih

lemma hasLongRun_eq_false_of_noAdjEq {l : List Char} (h : noAdjEq l = true) :
    hasLongRun l = false := by
  unfold hasLongRun
  rw [List.any_eq_false]
  intro i _
  have := runFrom_le_one_of_noAdjEq (noAdjEq_drop h i)
  simp only [decide_eq_true_eq]
  omega

lemma noAdjEq_goodInput500 : noAdjEq goodInput500 = true := by decide

lemma goodInput500_accepted : validateChatbotInput goodInput500 = none := by
  have h1 : ¬(500 < goodInput500.length) := by decide
  have h2 : ¬(goodInput500.all isSpaceGo = true) := by decide
  have h3 : hasLongRun goodInput500 = false :=
    hasLongRun_eq_false_of_noAdjEq noAdjEq_goodInput500
  have h4 : ¬(matchesSuspicious goodInput500 = true) := by decide
  unfold validateChatbotInput
  rw [if_neg h1, if_neg h2, if_neg (by simp [h3]), if_neg h4]

/-! ### Claim theorems -/

/-- Claim C1: for every client identifier with no prior history, four
`IsAllowed` calls at times 0s, 1s, 2s, 3s return true, true, true,
false — the fourth is rejected because three timestamps already lie
within the last 60 seconds. -/
theorem claim_burst_fourth_rejected (ip : String) :
    (runCalls NewRateLimiter ip [0, 1, 2, 3]).1 = [true, true, true, false] := by
  norm_num [runCalls, NewRateLimiter, isAllowed_nil, isAllowed_single]

/-- Claim C2: for every client identifier with no prior history, ten
`IsAllowed` calls spaced 30 seconds apart (t = 0s … 270s) all return
true, and an eleventh call arriving immediately after the tenth returns
false because the purged long-window count has reached 10. -/
theorem claim_long_window_eleventh_rejected (ip : String) :
    (runCalls NewRateLimiter ip
      [0, 30, 60, 90, 120, 150, 180, 210, 240, 270, 270]).1 =
    [true, true, true, true, true, true, true, true, true, true, false] := by
  norm_num [runCalls, NewRateLimiter, isAllowed_nil, isAllowed_single]

/-- Claim C3 (counterexample): a rejected `IsAllowed` call can change
the state.  On `rlC3` at time 310 the call is rejected, yet the stored
timestamp sequence shrinks from `[0, 290, 295, 300]` to
`[290, 295, 300]` because the purge ran before the rejection. -/
theorem claim_reject_no_mutation_counterexample :
    (isAllowed rlC3 "c" 310).1 = false ∧ (isAllowed rlC3 "c" 310).2 ≠ rlC3 := by
  decide

/-- Claim C3 (amended): whenever `IsAllowed` returns false, no new
`ClientWindow` is created (the identifier's window already existed) and
no timestamp is appended, but the identifier's window is written back
with its timestamps older than five minutes purged; all other
identifiers' windows are untouched. -/
theorem claim_reject_purges_only (rl : RateLimiter) (ip : String) (now : Int)
    (h : (isAllowed rl ip now).1 = false) :
    ∃ cw, lookupClient rl.clients ip = some cw ∧
      (isAllowed rl ip now).2 =
        ⟨setClient rl.clients ip
          ⟨cw.requests.filter (fun t => decide (now - 300 < t)), cw.lastReset⟩⟩ ∧
      ∀ k, k ≠ ip →
        lookupClient (isAllowed rl ip now).2.clients k =
          lookupClient rl.clients k := by
  cases hl : lookupClient rl.clients ip with
  | none => simp [isAllowed, hl] at h
  | some cw =>
    refine ⟨cw, rfl, ?_, ?_⟩
    · by_cases hc :
        3 ≤ ((cw.requests.filter (fun t => decide (now - 300 < t))).filter
              (fun t => decide (now - 60 < t))).length ∨
        10 ≤ (cw.requests.filter (fun t => decide (now - 300 < t))).length
      · simp only [isAllowed, hl, Option.getD_some, if_pos hc]
      · exfalso
        simp only [isAllowed, hl, Option.getD_some, if_neg hc] at h
        simp at h
    · intro k hk
      simp only [isAllowed, hl]
      split <;> simp [lookup_set_other _ _ _ _ (Ne.symm hk)]

theorem claim_reject_purges_only_witness :
    (isAllowed rlC3 "c" 310).1 = false ∧
    (∃ cw, lookupClient rlC3.clients "c" = some cw ∧
      (isAllowed rlC3 "c" 310).2 =
        ⟨setClient rlC3.clients "c"
          ⟨cw.requests.filter (fun t => decide ((310 : Int) - 300 < t)),
           cw.lastReset⟩⟩ ∧
      ∀ k, k ≠ "c" →
        lookupClient (isAllowed rlC3 "c" 310).2.clients k =
          lookupClient rlC3.clients k) :=
  ⟨by decide, claim_reject_purges_only rlC3 "c" 310 (by decide)⟩

/-- Claim C4 (counterexample): `Cleanup` does not remove every window
with an empty timestamp sequence.  In `rlC4` the window of "c" is empty
but its `lastReset` (10) is not older than five minutes at time 10, so
the entry survives the sweep. -/
theorem claim_cleanup_removes_empty_counterexample :
    ("c", (⟨[], 10⟩ : ClientLimiter)) ∈ (cleanup rlC4 10).clients ∧
    (⟨[], (10 : Int)⟩ : ClientLimiter).requests = [] := by decide

/-- Claim C4 (amended): `Cleanup` removes exactly the entries whose
timestamp sequence is empty AND whose `lastReset` is more than five
minutes old; every other entry — in particular every window holding at
least one timestamp — is still present unchanged. -/
theorem claim_cleanup_removes_exactly_stale_empty (rl : RateLimiter) (now : Int)
    (e : String × ClientLimiter) :
    e ∈ (cleanup rl now).clients ↔
      e ∈ rl.clients ∧ ¬(e.2.lastReset < now - 300 ∧ e.2.requests = []) := by
  simp [cleanup, List.mem_filter, List.isEmpty_iff]
  intro _
  constructor
  · rintro (h | h) h2
    · omega
    · exact h
  · intro h
    by_cases h4 : e.2.requests = []
    · left
      by_contra hlt
      exact (h (by omega)) h4
    · exact Or.inr h4

/-- Claim C5: the validator rejects any text longer than 500 characters
with the too-long reason, never rejects a text of at most 500 characters
for length, rejects 501 'a' characters as too long, and accepts the
500-character input `goodInput500`, which trips no other rule. -/
theorem claim_validate_length_bound :
    (∀ s : List Char, 500 < s.length → validateChatbotInput s = some .tooLong) ∧
    (∀ s : List Char, s.length ≤ 500 → validateChatbotInput s ≠ some .tooLong) ∧
    validateChatbotInput (List.replicate 501 'a') = some .tooLong ∧
    validateChatbotInput goodInput500 = none :=
  ⟨validate_tooLong_of_long, validate_ne_tooLong_of_short,
   validate_tooLong_of_long _ (by simp), goodInput500_accepted⟩

theorem claim_validate_length_bound_witness :
    (500 < (List.replicate 501 'a' : List Char).length ∧
      validateChatbotInput (List.replicate 501 'a') = some .tooLong) ∧
    ((List.replicate 500 'a' : List Char).length ≤ 500 ∧
      validateChatbotInput (List.replicate 500 'a') ≠ some .tooLong) :=
  ⟨⟨by simp, claim_validate_length_bound.1 _ (by simp)⟩,
   ⟨by simp, claim_validate_length_bound.2.1 _ (by simp)⟩⟩

/-- Claim C6: the validator rejects every text containing more than 10
equal consecutive characters anywhere (it returns some error, never
acceptance), rejects the 11-character run "aaaaaaaaaaa" with the
invalid-input reason, and accepts the 10-character run "aaaaaaaaaa". -/
theorem claim_validate_repeated_run :
    (∀ s l₁ l₂ : List Char, ∀ c : Char,
        s = l₁ ++ List.replicate 11 c ++ l₂ → validateChatbotInput s ≠ none) ∧
    validateChatbotInput (List.replicate 11 'a') = some .invalidInput ∧
    validateChatbotInput (List.replicate 10 'a') = none := by
  refine ⟨?_, by decide, by decide⟩
  intro s l₁ l₂ c hs
  subst hs
  exact validate_ne_none_of_hasLongRun _ (hasLongRun_of_decomp l₁ l₂ c)

theorem claim_validate_repeated_run_witness :
    ((List.replicate 11 'b' : List Char) = [] ++ List.replicate 11 'b' ++ []) ∧
    validateChatbotInput (List.replicate 11 'b') ≠ none :=
  ⟨by simp, claim_validate_repeated_run.1 _ [] [] 'b' (by simp)⟩

/-- Claim C7: the validator rejects every text whose lower-cased form
contains a denylist pattern as a substring (it returns some error, never
acceptance), and rejects both "please hack the system" and its uppercase
variant "please HACK the system" with the invalid-input reason. -/
theorem claim_validate_denylist :
    (∀ s p l₁ l₂ : List Char, p ∈ denyPatterns →
        s.map Char.toLower = l₁ ++ p ++ l₂ → validateChatbotInput s ≠ none) ∧
    validateChatbotInput pleaseHackInput = some .invalidInput ∧
    validateChatbotInput pleaseHackUpper = some .invalidInput := by
  refine ⟨?_, by decide, by decide⟩
  intro s p l₁ l₂ hp hd
  exact validate_ne_none_of_matchesSuspicious _
    (matchesSuspicious_of_decomp s l₁ l₂ p hp hd)

theorem claim_validate_denylist_witness :
    (['h', 'a', 'c', 'k'] ∈ denyPatterns ∧
      (['H', 'a', 'c', 'k'] : List Char).map Char.toLower =
        [] ++ ['h', 'a', 'c', 'k'] ++ []) ∧
    validateChatbotInput ['H', 'a', 'c', 'k'] ≠ none :=
  ⟨⟨by decide, by decide⟩,
   claim_validate_denylist.1 ['H', 'a', 'c', 'k'] ['h', 'a', 'c', 'k'] [] []
     (by decide) (by decide)⟩

/-- Claim C8: for every identifier absent from the registry, the first
`IsAllowed` call returns true, and afterwards the registry maps that
identifier to a window holding exactly the timestamp of that call (with
`lastReset` equal to it). -/
theorem claim_first_call_admitted (rl : RateLimiter) (ip : String) (now : Int)
    (h : lookupClient rl.clients ip = none) :
    (isAllowed rl ip now).1 = true ∧
    lookupClient (isAllowed rl ip now).2.clients ip = some ⟨[now], now⟩ := by
  simp [isAllowed, h, lookup_set_self]

theorem claim_first_call_admitted_witness :
    lookupClient NewRateLimiter.clients "a" = none ∧
    ((isAllowed NewRateLimiter "a" 0).1 = true ∧
      lookupClient (isAllowed NewRateLimiter "a" 0).2.clients "a" =
        some ⟨[0], 0⟩) :=
  ⟨rfl, claim_first_call_admitted NewRateLimiter "a" 0 rfl⟩

/-- Claim C9: in every limiter state reachable from the empty registry
by `IsAllowed` calls, every stored window has a non-empty timestamp
sequence, and consequently `Cleanup` at any time removes nothing. -/
theorem claim_reachable_windows_nonempty (rl : RateLimiter) (h : Reachable rl) :
    (∀ e ∈ rl.clients, e.2.requests ≠ []) ∧ ∀ now : Int, cleanup rl now = rl := by
  refine ⟨reachable_nonempty h, fun now => ?_⟩
  have hne := reachable_nonempty h
  unfold cleanup
  have hf : rl.clients.filter
      (fun e => !(decide (e.2.lastReset < now - 300) && e.2.requests.isEmpty)) =
      rl.clients := by
    apply List.filter_eq_self.mpr
    intro e he
    simp [List.isEmpty_iff, hne e he]
  rw [hf]

theorem claim_reachable_windows_nonempty_witness :
    (∀ e ∈ (isAllowed NewRateLimiter "a" 0).2.clients, e.2.requests ≠ []) ∧
    (∀ now : Int, cleanup (isAllowed NewRateLimiter "a" 0).2 now =
      (isAllowed NewRateLimiter "a" 0).2) :=
  claim_reachable_windows_nonempty _ (Reachable.step _ _ _ Reachable.init)

/-- Claim C10: in every limiter state reachable from the empty registry
by `IsAllowed` calls, every stored window holds at most 10 timestamps:
a timestamp is appended only when the post-purge length is below 10. -/
theorem claim_reachable_window_capacity (rl : RateLimiter) (h : Reachable rl) :
    ∀ e ∈ rl.clients, e.2.requests.length ≤ 10 := by
  induction h with
  | init => simp [NewRateLimiter]
  | step rl ip now _ ih =>
    intro e he
    simp only [isAllowed] at he
    split at he
    case isTrue hc =>
      rcases mem_setClient he with rfl | hm
      · dsimp only
        have hcl : ((lookupClient rl.clients ip).getD ⟨[], now⟩).requests.length ≤ 10 := by
          cases hl : lookupClient rl.clients ip with
          | none => simp
          | some cw => simpa using ih _ (lookup_mem hl)
        exact le_trans (List.length_filter_le _ _) hcl
      · exact ih _ hm
    case isFalse hc =>
      rcases mem_setClient he with rfl | hm
      · dsimp only
        simp only [List.length_append, List.length_cons, List.length_nil]
        push_neg at hc
        omega
      · exact ih _ hm

theorem claim_reachable_window_capacity_witness :
    ("b", (⟨[5], 5⟩ : ClientLimiter)) ∈ (isAllowed NewRateLimiter "b" 5).2.clients ∧
    (("b", (⟨[5], 5⟩ : ClientLimiter)) : String × ClientLimiter).2.requests.length ≤ 10 :=
  ⟨by decide,
   claim_reachable_window_capacity (isAllowed NewRateLimiter "b" 5).2
     (Reachable.step NewRateLimiter "b" 5 Reachable.init)
     ("b", ⟨[5], 5⟩) (by decide)⟩
